import Mathlib

/-
Shallow embedding of the simple-rust-stack-interp interpreter.

The repository has two near-identical copies of the interpreter:
  * src/src/main.rs      - standalone binary, no tracing hook;
  * src/interp/src/lib.rs - library variant whose run loop additionally calls
    `mt.control_point(loc)` once per fetched instruction, before dispatch.

The embedding below follows main.rs for the untraced engine (`step`, `run`)
and lib.rs for the traced engine (`stepT`, `runT`), where the control-point
notification is modelled as the list of program-counter values at which the
hook fired.  `fatal(msg)` (print a diagnostic and exit(1)) is modelled by an
error outcome carrying the message; i32 arithmetic is modelled by `Int` with
an explicit two's-complement wrap `wrap32` (release-mode wraparound).
-/

/-- Two's-complement wraparound of an unbounded integer into the i32 range,
modelling Rust release-mode `i32` addition/subtraction overflow. -/
def wrap32 (z : Int) : Int :=
  (z + 2147483648) % 4294967296 - 2147483648

/-- StackVal from the source: a single `Number` variant holding an i32. -/
inductive StackVal where
  | Number (n : Int)
deriving DecidableEq, Repr

/-- Extract the number of a stack value, as `Stack::pop_number`'s match does. -/
def StackVal.num : StackVal → Int
  | StackVal.Number n => n

/-- Instr from the source, one case per opcode. -/
inductive Instr where
  | Push (val : StackVal)
  | Pop
  | Add
  | Dup
  | Sub
  | JumpEqual (cmp : Int) (label : String)
  | JumpNotEqual (cmp : Int) (label : String)
  | Print
deriving DecidableEq, Repr

/-- ParsedLine from the source: a line parses to a label or an instruction. -/
inductive ParsedLine where
  | Label (name : String)
  | Instr (i : Instr)
deriving DecidableEq, Repr

/-- Program = Vec of Instr, addressed by zero-based position. -/
abbrev Program := List Instr

/-- LabelMap = HashMap from label name to address, modelled as an
association list (duplicate keys are rejected at load time, see
`Interp.parse`, so lookup is unambiguous). -/
abbrev LabelMap := List (String × Nat)

/-- Whitespace test used by `str::trim` (ASCII subset model). -/
def isWsChar (c : Char) : Bool :=
  c == ' ' || c == '\t' || c == '\n' || c == '\r'

/-- Leading/trailing-whitespace trimming on a character list. -/
def trimList (cs : List Char) : List Char :=
  ((cs.dropWhile isWsChar).reverse.dropWhile isWsChar).reverse

/-- Rust `str::trim`. -/
def rustTrim (s : String) : String :=
  String.mk (trimList s.toList)

/-- Rust `str::split(" ")`: split on every single space, keeping empty
pieces between consecutive separators; the empty string yields `[""]`. -/
def splitSpace : List Char → List (List Char)
  | [] => [[]]
  | c :: rest =>
    if c == ' ' then [] :: splitSpace rest
    else
      match splitSpace rest with
      | [] => [[c]]
      | t :: ts => (c :: t) :: ts

/-- The token iterator of `parse_line`:
`line.trim().split(" ").map(|x| x.trim())`. -/
def tokensOf (line : String) : List String :=
  (splitSpace (trimList line.toList)).map (fun t => String.mk (trimList t))

/-- Decimal digit test, as accepted by Rust `i32::from_str`. -/
def isDigitChar (c : Char) : Bool := '0' ≤ c && c ≤ '9'

/-- Value of a digit string. -/
def digitsToNat (ds : List Char) : Nat :=
  ds.foldl (fun a c => a * 10 + (c.toNat - 48)) 0

/-- Rust `s.parse::<i32>()`: optional sign, one or more decimal digits,
value must fit in i32; anything else is an error. -/
def rustParseI32 (s : String) : Option Int :=
  let cs := s.toList
  let sd : Int × List Char :=
    match cs with
    | '-' :: rest => (-1, rest)
    | '+' :: rest => (1, rest)
    | _ => (1, cs)
  if sd.2 = [] then none
  else if sd.2.all isDigitChar then
    let v : Int := sd.1 * (digitsToNat sd.2 : Nat)
    if -2147483648 ≤ v ∧ v < 2147483648 then some v else none
  else none

/-- Interp::parse_number: parse or die with "parse error: unparsed number". -/
def Interp.parse_number (s : String) : Except String Int :=
  match rustParseI32 s with
  | some n => Except.ok n
  | none => Except.error ("parse error: unparsed number")

/-- The `next_operand` closure of `parse_line`: take the next token
(trimmed again) or die with "parse error: too few arguments". -/
def next_operand : List String → Except String (String × List String)
  | [] => Except.error ("parse error: too few arguments")
  | t :: rest => Except.ok (rustTrim t, rest)

/-- Last-character test for the label-directive case, Rust
`opcode.ends_with(":")`. -/
def endsWithColon (s : String) : Bool :=
  match s.toList.getLast? with
  | some c => c == ':'
  | none => false

/-- The opcode dispatch of `parse_line` (the Rust `match opcode`), returning
the parsed line together with the unconsumed remainder of the token
iterator.  Rust string-pattern matching is an equality chain, rendered here
as nested ifs in source order. -/
def parseOp (opcode : String) (toks : List String) :
    Except String (ParsedLine × List String) :=
  if opcode = "add" then Except.ok (ParsedLine.Instr Instr.Add, toks)
  else if opcode = "sub" then Except.ok (ParsedLine.Instr Instr.Sub, toks)
  else if opcode = "print" then Except.ok (ParsedLine.Instr Instr.Print, toks)
  else if opcode = "pop" then Except.ok (ParsedLine.Instr Instr.Pop, toks)
  else if opcode = "dup" then Except.ok (ParsedLine.Instr Instr.Dup, toks)
  else if opcode = "je" then
    match next_operand toks with
    | Except.error e => Except.error e
    | Except.ok (s1, toks1) =>
      match Interp.parse_number s1 with
      | Except.error e => Except.error e
      | Except.ok cmp =>
        match next_operand toks1 with
        | Except.error e => Except.error e
        | Except.ok (target, toks2) =>
          Except.ok (ParsedLine.Instr (Instr.JumpEqual cmp target), toks2)
  else if opcode = "jne" then
    match next_operand toks with
    | Except.error e => Except.error e
    | Except.ok (s1, toks1) =>
      match Interp.parse_number s1 with
      | Except.error e => Except.error e
      | Except.ok cmp =>
        match next_operand toks1 with
        | Except.error e => Except.error e
        | Except.ok (target, toks2) =>
          Except.ok (ParsedLine.Instr (Instr.JumpNotEqual cmp target), toks2)
  else if opcode = "push" then
    match next_operand toks with
    | Except.error e => Except.error e
    | Except.ok (s1, toks1) =>
      match Interp.parse_number s1 with
      | Except.error e => Except.error e
      | Except.ok v =>
        Except.ok (ParsedLine.Instr (Instr.Push (StackVal.Number v)), toks1)
  else if endsWithColon opcode then
    Except.ok (ParsedLine.Label (String.mk opcode.toList.dropLast), toks)
  else Except.error ("parse error: unknown opcode")

/-- Interp::parse_line: trim + split the line, dispatch on the first token,
then die with "parse error: too many operands" if tokens remain. -/
def Interp.parse_line (line : String) : Except String ParsedLine :=
  match next_operand (tokensOf line) with
  | Except.error e => Except.error e
  | Except.ok (opcode, rest) =>
    match parseOp opcode rest with
    | Except.error e => Except.error e
    | Except.ok (rv, rest1) =>
      match rest1 with
      | [] => Except.ok rv
      | _ :: _ => Except.error ("parse error: too many operands")

/-- The loop body of Interp::parse: fold the lines, appending instructions
to the program and registering each label at the current instruction count,
dying with "parse error: duplicate label" on a re-registered name. -/
def Interp.parseLines :
    List String → Program → LabelMap → Except String (Program × LabelMap)
  | [], prog, labels => Except.ok (prog, labels)
  | line :: rest, prog, labels =>
    match Interp.parse_line line with
    | Except.error e => Except.error e
    | Except.ok (ParsedLine.Instr i) =>
      Interp.parseLines rest (prog ++ [i]) labels
    | Except.ok (ParsedLine.Label name) =>
      if (List.lookup name labels).isSome then
        Except.error ("parse error: duplicate label")
      else Interp.parseLines rest prog (labels ++ [(name, prog.length)])

/-- Interp::parse on the already-read lines of the source file. -/
def Interp.parse (lines : List String) : Except String (Program × LabelMap) :=
  Interp.parseLines lines [] []

/-- Interpreter state: the operand stack, the program counter, and the
sequence of numbers printed so far (stdout). -/
structure State where
  stack : List StackVal
  pc : Nat
  out : List Int
deriving DecidableEq, Repr

/-- Result of one trip round the interpreter loop: fall out of the loop at
end of program, continue with a new state, or die with a fatal message. -/
inductive StepResult where
  | halt (s : State)
  | next (s : State)
  | fatal (msg : String) (s : State)
deriving DecidableEq, Repr

/-- Final outcome of a fuelled run. -/
inductive Outcome where
  | ok (s : State)
  | fatal (msg : String) (s : State)
  | outOfFuel (s : State)
deriving DecidableEq, Repr

/-- The dispatch block of Interp::run from main.rs (the `match
instr.unwrap()`).  Stack pops that find the stack empty die with
"stack underflow" (`Stack::pop`); a taken jump whose label is not in the
table dies with "undefined label". -/
def execInstr (labels : LabelMap) (instr : Instr) (s : State) : StepResult :=
  match instr with
    | Instr.Push v => StepResult.next ⟨v :: s.stack, s.pc + 1, s.out⟩
    | Instr.Add =>
      match s.stack with
      | a1 :: a2 :: rest =>
        StepResult.next
          ⟨StackVal.Number (wrap32 (a1.num + a2.num)) :: rest, s.pc + 1, s.out⟩
      | _ => StepResult.fatal ("stack underflow") s
    | Instr.Dup =>
      match s.stack with
      | v :: rest => StepResult.next ⟨v :: v :: rest, s.pc + 1, s.out⟩
      | [] => StepResult.fatal ("stack underflow") s
    | Instr.Sub =>
      match s.stack with
      | a1 :: a2 :: rest =>
        StepResult.next
          ⟨StackVal.Number (wrap32 (a2.num - a1.num)) :: rest, s.pc + 1, s.out⟩
      | _ => StepResult.fatal ("stack underflow") s
    | Instr.Print =>
      match s.stack with
      | v :: rest => StepResult.next ⟨rest, s.pc + 1, s.out ++ [v.num]⟩
      | [] => StepResult.fatal ("stack underflow") s
    | Instr.Pop =>
      match s.stack with
      | _ :: rest => StepResult.next ⟨rest, s.pc + 1, s.out⟩
      | [] => StepResult.fatal ("stack underflow") s
    | Instr.JumpNotEqual cmp label =>
      match s.stack with
      | v :: rest =>
        if v.num ≠ cmp then
          match List.lookup label labels with
          | some addr => StepResult.next ⟨rest, addr, s.out⟩
          | none => StepResult.fatal ("undefined label") s
        else StepResult.next ⟨rest, s.pc + 1, s.out⟩
      | [] => StepResult.fatal ("stack underflow") s
    | Instr.JumpEqual cmp label =>
      match s.stack with
      | v :: rest =>
        if v.num = cmp then
          match List.lookup label labels with
          | some addr => StepResult.next ⟨rest, addr, s.out⟩
          | none => StepResult.fatal ("undefined label") s
        else StepResult.next ⟨rest, s.pc + 1, s.out⟩
      | [] => StepResult.fatal ("stack underflow") s

/-- One iteration of Interp::run from main.rs: fetch `program.get(pc)`,
fall out of the loop at `None`, otherwise dispatch. -/
def step (p : Program) (labels : LabelMap) (s : State) : StepResult :=
  match List.get? p s.pc with
  | none => StepResult.halt s
  | some instr => execInstr labels instr s

/-- Interp::run from main.rs, fuelled. -/
def run (p : Program) (labels : LabelMap) : Nat → State → Outcome
  | 0, s => Outcome.outOfFuel s
  | Nat.succ fuel, s =>
    match step p labels s with
    | StepResult.halt s2 => Outcome.ok s2
    | StepResult.fatal m s2 => Outcome.fatal m s2
    | StepResult.next s2 => run p labels fuel s2

/-- The dispatch block of Interp::run from lib.rs, textually identical to
the one in main.rs. -/
def execInstrT (labels : LabelMap) (instr : Instr) (s : State) : StepResult :=
  match instr with
  | Instr.Push v => StepResult.next ⟨v :: s.stack, s.pc + 1, s.out⟩
  | Instr.Add =>
    match s.stack with
    | a1 :: a2 :: rest =>
      StepResult.next
        ⟨StackVal.Number (wrap32 (a1.num + a2.num)) :: rest, s.pc + 1, s.out⟩
    | _ => StepResult.fatal ("stack underflow") s
  | Instr.Dup =>
    match s.stack with
    | v :: rest => StepResult.next ⟨v :: v :: rest, s.pc + 1, s.out⟩
    | [] => StepResult.fatal ("stack underflow") s
  | Instr.Sub =>
    match s.stack with
    | a1 :: a2 :: rest =>
      StepResult.next
        ⟨StackVal.Number (wrap32 (a2.num - a1.num)) :: rest, s.pc + 1, s.out⟩
    | _ => StepResult.fatal ("stack underflow") s
  | Instr.Print =>
    match s.stack with
    | v :: rest => StepResult.next ⟨rest, s.pc + 1, s.out ++ [v.num]⟩
    | [] => StepResult.fatal ("stack underflow") s
  | Instr.Pop =>
    match s.stack with
    | _ :: rest => StepResult.next ⟨rest, s.pc + 1, s.out⟩
    | [] => StepResult.fatal ("stack underflow") s
  | Instr.JumpNotEqual cmp label =>
    match s.stack with
    | v :: rest =>
      if v.num ≠ cmp then
        match List.lookup label labels with
        | some addr => StepResult.next ⟨rest, addr, s.out⟩
        | none => StepResult.fatal ("undefined label") s
      else StepResult.next ⟨rest, s.pc + 1, s.out⟩
    | [] => StepResult.fatal ("stack underflow") s
  | Instr.JumpEqual cmp label =>
    match s.stack with
    | v :: rest =>
      if v.num = cmp then
        match List.lookup label labels with
        | some addr => StepResult.next ⟨rest, addr, s.out⟩
        | none => StepResult.fatal ("undefined label") s
      else StepResult.next ⟨rest, s.pc + 1, s.out⟩
    | [] => StepResult.fatal ("stack underflow") s

/-- One iteration of Interp::run from lib.rs: identical dispatch, but after
a successful fetch the engine first calls `mt.control_point(loc)`.  The
notification is the second component: the (singleton) list of pc values at
which the hook fired during this iteration. -/
def stepT (p : Program) (labels : LabelMap) (s : State) :
    StepResult × List Nat :=
  match List.get? p s.pc with
  | none => (StepResult.halt s, [])
  | some instr => (execInstrT labels instr s, [s.pc])

/-- Interp::run from lib.rs, fuelled, also returning the full sequence of
control-point notifications (pc values, in order of emission). -/
def runT (p : Program) (labels : LabelMap) : Nat → State → Outcome × List Nat
  | 0, s => (Outcome.outOfFuel s, [])
  | Nat.succ fuel, s =>
    match stepT p labels s with
    | (StepResult.halt s2, tr) => (Outcome.ok s2, tr)
    | (StepResult.fatal m s2, tr) => (Outcome.fatal m s2, tr)
    | (StepResult.next s2, tr) =>
      let r := runT p labels fuel s2
      (r.1, tr ++ r.2)

/-- The initial interpreter state: empty stack, pc 0, nothing printed. -/
def initState : State := ⟨[], 0, []⟩

/-- The whole binary on the given source lines: parse, then run (fuelled). -/
def interpret (lines : List String) (fuel : Nat) : Except String Outcome :=
  match Interp.parse lines with
  | Except.error e => Except.error e
  | Except.ok (p, labels) => Except.ok (run p labels fuel initState)

/-- An instruction is jump-free when it is neither `je` nor `jne`. -/
def jumpFreeInstr : Instr → Bool
  | Instr.JumpEqual _ _ => false
  | Instr.JumpNotEqual _ _ => false
  | _ => true

/-! Helper lemmas. -/

/-- The traced engine's dispatch result equals the untraced engine's: the
control-point call returns nothing the interpreter consumes. -/
theorem stepT_fst (p : Program) (l : LabelMap) (s : State) :
    (stepT p l s).1 = step p l s := by
  unfold stepT step
  cases List.get? p s.pc with
  | none => rfl
  | some i => rfl

/-- The traced engine notifies exactly once per fetched instruction and not
at all when the fetch falls off the end of the program. -/
theorem stepT_snd (p : Program) (l : LabelMap) (s : State) :
    (stepT p l s).2 = if (List.get? p s.pc).isSome then [s.pc] else [] := by
  unfold stepT
  cases List.get? p s.pc with
  | none => rfl
  | some i => rfl

/-- Fuelled-run version of `stepT_fst`. -/
theorem runT_fst (p : Program) (l : LabelMap) :
    ∀ fuel s, (runT p l fuel s).1 = run p l fuel s := by
  intro fuel
  induction fuel with
  | zero => intro s; rfl
  | succ n ih =>
    intro s
    have hfst := stepT_fst p l s
    unfold runT run
    rcases hst : stepT p l s with ⟨r, tr⟩
    rw [hst] at hfst
    rw [← hfst]
    cases r with
    | halt s2 => rfl
    | fatal m s2 => rfl
    | next s2 => simpa using ih s2

/-- C2: with at least two values on the stack, `sub` pops `a` then `b` and
pushes `b - a` (the value popped second is the minuend) and increments the
pc; the program `push 10 / push 3 / sub / print` prints exactly 7. -/
theorem sub_order_semantics (p : Program) (l : LabelMap) (pc : Nat)
    (out : List Int) (a b : Int) (rest : List StackVal)
    (hget : List.get? p pc = some Instr.Sub) :
    step p l ⟨StackVal.Number a :: StackVal.Number b :: rest, pc, out⟩
        = StepResult.next ⟨StackVal.Number (wrap32 (b - a)) :: rest, pc + 1, out⟩
      ∧ interpret ["push 10", "push 3", "sub", "print"] 10
        = Except.ok (Outcome.ok ⟨[], 4, [7]⟩) := by
  constructor
  · unfold step
    rw [hget]
    rfl
  · rfl

theorem sub_order_semantics_witness :
    step [Instr.Sub] [] ⟨[StackVal.Number 3, StackVal.Number 10], 0, []⟩
        = StepResult.next ⟨[StackVal.Number 7], 1, []⟩
      ∧ interpret ["push 10", "push 3", "sub", "print"] 10
        = Except.ok (Outcome.ok ⟨[], 4, [7]⟩) := by
  have h := sub_order_semantics [Instr.Sub] [] 0 [] 3 10 [] rfl
  exact ⟨by rw [h.1]; rfl, h.2⟩

/-- C7: `add` and `sub` wrap around in two's complement on the 32-bit
range: `add` pushes `(a + b) mod 2^32` (recentred into the signed range),
`sub` pushes `(b - a) mod 2^32`, neither ever produces a fatal result,
`add` is independent of pop order, and pushing `2147483647 + 1` prints the
wrapped value `-2147483648`. -/
theorem arith_wraparound (p : Program) (l : LabelMap) (pc : Nat)
    (out : List Int) (a b : Int) (rest : List StackVal) :
    (List.get? p pc = some Instr.Add →
      step p l ⟨StackVal.Number a :: StackVal.Number b :: rest, pc, out⟩
        = StepResult.next
            ⟨StackVal.Number (wrap32 (a + b)) :: rest, pc + 1, out⟩)
    ∧ (List.get? p pc = some Instr.Sub →
      step p l ⟨StackVal.Number a :: StackVal.Number b :: rest, pc, out⟩
        = StepResult.next
            ⟨StackVal.Number (wrap32 (b - a)) :: rest, pc + 1, out⟩)
    ∧ wrap32 (a + b) = wrap32 (b + a)
    ∧ wrap32 (a + b) % 4294967296 = (a + b) % 4294967296
    ∧ wrap32 (b - a) % 4294967296 = (b - a) % 4294967296
    ∧ (-2147483648 ≤ wrap32 (a + b) ∧ wrap32 (a + b) < 2147483648)
    ∧ interpret ["push 2147483647", "push 1", "add", "print"] 10
      = Except.ok (Outcome.ok ⟨[], 4, [-2147483648]⟩) := by
  refine ⟨?_, ?_, ?_, ?_, ?_, ?_, rfl⟩
  · intro hget; unfold step; rw [hget]; rfl
  · intro hget; unfold step; rw [hget]; rfl
  · unfold wrap32; ring_nf
  · unfold wrap32; omega
  · unfold wrap32; omega
  · unfold wrap32; omega

theorem arith_wraparound_witness :
    step [Instr.Add] [] ⟨[StackVal.Number 1, StackVal.Number 2147483647], 0, []⟩
        = StepResult.next ⟨[StackVal.Number (-2147483648)], 1, []⟩
      ∧ interpret ["push 2147483647", "push 1", "add", "print"] 10
        = Except.ok (Outcome.ok ⟨[], 4, [-2147483648]⟩) := by
  have h := arith_wraparound [Instr.Add] [] 0 [] 1 2147483647 []
  exact ⟨by rw [h.1 rfl]; rfl, h.2.2.2.2.2.2⟩

/-- C8: the interpreter's semantics are independent of the trace hook: for
every program, label table, fuel and start state, the traced run (lib.rs)
and the untraced run (main.rs) produce the same outcome — same printed
output, same fatal-or-normal result, same final pc and stack. -/
theorem trace_hook_transparent (p : Program) (l : LabelMap) (fuel : Nat)
    (s : State) :
    (runT p l fuel s).1 = run p l fuel s :=
  runT_fst p l fuel s

/-- C10: a line that is empty or all whitespace trims to the empty string,
whose single empty token is taken as the opcode, matches no opcode and no
label directive, and is rejected as an unknown opcode. -/
theorem blank_line_unknown_opcode (line : String)
    (h : line.toList.all isWsChar = true) :
    Interp.parse_line line = Except.error ("parse error: unknown opcode") := by
  have htrim : trimList line.toList = [] := by
    unfold trimList
    have h1 : line.toList.dropWhile isWsChar = [] :=
      List.dropWhile_eq_nil_iff.mpr (fun x hx => (List.all_eq_true.mp h) x hx)
    rw [h1]; rfl
  unfold Interp.parse_line tokensOf
  rw [htrim]
  rfl

theorem blank_line_unknown_opcode_witness :
    Interp.parse_line ("   ") = Except.error ("parse error: unknown opcode") :=
  blank_line_unknown_opcode ("   ") (by decide)

/-- C4: jump targets are stored verbatim at load time with no validation
(a program whose only jump names an absent label parses fine); at run time
`je`/`jne` on a non-empty stack pops `v` and, exactly when the branch
condition holds, resolves the label — fatal "undefined label" if and only
if the condition holds and the name is absent — while a failed condition
just increments the pc and can raise no label error. -/
theorem jump_label_runtime_resolution (p : Program) (l : LabelMap) (pc : Nat)
    (out : List Int) (cmp v : Int) (lbl : String) (rest : List StackVal) :
    Interp.parse ["push 1", "je 1 nowhere"]
      = Except.ok
          ([Instr.Push (StackVal.Number 1), Instr.JumpEqual 1 ("nowhere")], [])
    ∧ (List.get? p pc = some (Instr.JumpEqual cmp lbl) →
        step p l ⟨StackVal.Number v :: rest, pc, out⟩
          = if v = cmp then
              match List.lookup lbl l with
              | some addr => StepResult.next ⟨rest, addr, out⟩
              | none =>
                StepResult.fatal ("undefined label")
                  ⟨StackVal.Number v :: rest, pc, out⟩
            else StepResult.next ⟨rest, pc + 1, out⟩)
    ∧ (List.get? p pc = some (Instr.JumpNotEqual cmp lbl) →
        step p l ⟨StackVal.Number v :: rest, pc, out⟩
          = if v ≠ cmp then
              match List.lookup lbl l with
              | some addr => StepResult.next ⟨rest, addr, out⟩
              | none =>
                StepResult.fatal ("undefined label")
                  ⟨StackVal.Number v :: rest, pc, out⟩
            else StepResult.next ⟨rest, pc + 1, out⟩) := by
  refine ⟨rfl, ?_, ?_⟩
  · intro hget; unfold step; rw [hget]; rfl
  · intro hget; unfold step; rw [hget]; rfl

theorem jump_label_runtime_resolution_witness :
    step [Instr.JumpEqual 0 ("missing")] [] ⟨[StackVal.Number 0], 0, []⟩
      = StepResult.fatal ("undefined label") ⟨[StackVal.Number 0], 0, []⟩
    ∧ step [Instr.JumpEqual 0 ("missing")] [] ⟨[StackVal.Number 1], 0, []⟩
      = StepResult.next ⟨[], 1, []⟩ := by
  have h0 := (jump_label_runtime_resolution [Instr.JumpEqual 0 ("missing")]
    [] 0 [] 0 0 ("missing") []).2.1 rfl
  have h1 := (jump_label_runtime_resolution [Instr.JumpEqual 0 ("missing")]
    [] 0 [] 0 1 ("missing") []).2.1 rfl
  exact ⟨by rw [h0]; rfl, by rw [h1]; rfl⟩

/-- C5: every value-consuming instruction — `pop`, `dup`, `print`, the
jump comparison, and the two pops of `add`/`sub` — dies with
"stack underflow" when it pops from an empty stack (`add`/`sub` also when
only one value remains for their second pop), and the one-instruction
program `pop` aborts having printed nothing. -/
theorem underflow_fatal (p : Program) (l : LabelMap) (pc : Nat)
    (out : List Int) (v : StackVal) (cmp : Int) (lbl : String) :
    (∀ i, List.get? p pc = some i →
      (i = Instr.Pop ∨ i = Instr.Dup ∨ i = Instr.Print ∨ i = Instr.Add ∨
       i = Instr.Sub ∨ i = Instr.JumpEqual cmp lbl ∨
       i = Instr.JumpNotEqual cmp lbl) →
      step p l ⟨[], pc, out⟩
        = StepResult.fatal ("stack underflow") ⟨[], pc, out⟩)
    ∧ ((List.get? p pc = some Instr.Add ∨ List.get? p pc = some Instr.Sub) →
      step p l ⟨[v], pc, out⟩
        = StepResult.fatal ("stack underflow") ⟨[v], pc, out⟩)
    ∧ interpret ["pop"] 5
      = Except.ok (Outcome.fatal ("stack underflow") initState) := by
  refine ⟨?_, ?_, rfl⟩
  · intro i hget hcase
    unfold step; rw [hget]
    rcases hcase with h | h | h | h | h | h | h <;> subst h <;> rfl
  · intro hcase
    rcases hcase with h | h <;> (unfold step; rw [h]; rfl)

theorem underflow_fatal_witness :
    step [Instr.Pop] [] ⟨[], 0, []⟩
      = StepResult.fatal ("stack underflow") ⟨[], 0, []⟩
    ∧ step [Instr.Add] [] ⟨[StackVal.Number 5], 0, []⟩
      = StepResult.fatal ("stack underflow") ⟨[StackVal.Number 5], 0, []⟩
    ∧ interpret ["pop"] 5
      = Except.ok (Outcome.fatal ("stack underflow") initState) := by
  have h := underflow_fatal [Instr.Pop] [] 0 [] (StackVal.Number 5) 0 ("x")
  have h2 := underflow_fatal [Instr.Add] [] 0 [] (StackVal.Number 5) 0 ("x")
  exact ⟨h.1 Instr.Pop rfl (Or.inl rfl), h2.2.1 (Or.inl rfl), h.2.2⟩

/-- C6: loading dies, before anything runs, on each malformed input with
its own diagnostic: an unknown opcode (any first token outside the fixed
set that does not end in a colon), too few tokens for an opcode's arity,
unconsumed tokens past the arity, a non-integer where an integer is
required, and a rebound label name — and the five diagnostics are
pairwise distinct. -/
theorem parse_errors_fatal (opcode : String) (toks : List String) :
    (opcode ≠ "add" → opcode ≠ "sub" → opcode ≠ "print" → opcode ≠ "pop" →
     opcode ≠ "dup" → opcode ≠ "je" → opcode ≠ "jne" → opcode ≠ "push" →
     endsWithColon opcode = false →
     parseOp opcode toks = Except.error ("parse error: unknown opcode"))
    ∧ Interp.parse_line ("frobnicate")
      = Except.error ("parse error: unknown opcode")
    ∧ Interp.parse_line ("je 0")
      = Except.error ("parse error: too few arguments")
    ∧ Interp.parse_line ("push 1 2")
      = Except.error ("parse error: too many operands")
    ∧ Interp.parse_line ("push abc")
      = Except.error ("parse error: unparsed number")
    ∧ Interp.parse ["loop:", "push 1", "loop:"]
      = Except.error ("parse error: duplicate label")
    ∧ interpret ["frobnicate", "push 1"] 5
      = Except.error ("parse error: unknown opcode")
    ∧ List.Pairwise Ne
        (["parse error: unknown opcode", "parse error: too few arguments",
          "parse error: too many operands", "parse error: unparsed number",
          "parse error: duplicate label"] : List String) := by
  refine ⟨?_, rfl, rfl, rfl, rfl, rfl, rfl, by decide⟩
  intro h1 h2 h3 h4 h5 h6 h7 h8 h9
  simp [parseOp, h1, h2, h3, h4, h5, h6, h7, h8, h9]

theorem parse_errors_fatal_witness :
    parseOp ("frobnicate") []
      = Except.error ("parse error: unknown opcode")
    ∧ Interp.parse ["loop:", "push 1", "loop:"]
      = Except.error ("parse error: duplicate label") := by
  have h := parse_errors_fatal ("frobnicate") []
  exact ⟨h.1 (by decide) (by decide) (by decide) (by decide) (by decide)
    (by decide) (by decide) (by decide) (by decide), h.2.2.2.2.2.1⟩

/-- Unfolding lemma: a line parsing to an instruction appends it. -/
theorem parseLines_instr_step (line : String) (i : Instr)
    (rest : List String) (p0 : Program) (l0 : LabelMap)
    (h : Interp.parse_line line = Except.ok (ParsedLine.Instr i)) :
    Interp.parseLines (line :: rest) p0 l0
      = Interp.parseLines rest (p0 ++ [i]) l0 := by
  simp only [Interp.parseLines, h]

/-- Unfolding lemma: a fresh label directive binds the name to the current
instruction count and emits nothing. -/
theorem parseLines_label_step (line name : String)
    (rest : List String) (p0 : Program) (l0 : LabelMap)
    (h : Interp.parse_line line = Except.ok (ParsedLine.Label name))
    (hnew : List.lookup name l0 = none) :
    Interp.parseLines (line :: rest) p0 l0
      = Interp.parseLines rest p0 (l0 ++ [(name, p0.length)]) := by
  simp only [Interp.parseLines, h, hnew, Option.isSome_none, Bool.false_eq_true,
    if_false]

/-- Unfolding lemma: a re-registered label name is fatal. -/
theorem parseLines_dup_step (line name : String)
    (rest : List String) (p0 : Program) (l0 : LabelMap)
    (h : Interp.parse_line line = Except.ok (ParsedLine.Label name))
    (hdup : (List.lookup name l0).isSome = true) :
    Interp.parseLines (line :: rest) p0 l0
      = Except.error ("parse error: duplicate label") := by
  simp only [Interp.parseLines, h, hdup, if_true]

/-- Unfolding lemma: a failing line fails the whole load. -/
theorem parseLines_error_step (line : String) (e : String)
    (rest : List String) (p0 : Program) (l0 : LabelMap)
    (h : Interp.parse_line line = Except.error e) :
    Interp.parseLines (line :: rest) p0 l0 = Except.error e := by
  simp only [Interp.parseLines, h]

/-- A successful association-list lookup is a membership. -/
theorem lookup_mem {k : String} {v : Nat} :
    ∀ l : LabelMap, List.lookup k l = some v → (k, v) ∈ l := by
  intro l
  induction l with
  | nil => intro h; exact absurd h (by simp)
  | cons kv tail ih =>
    obtain ⟨a, b⟩ := kv
    intro h
    by_cases hk : k = a
    · subst hk
      rw [List.lookup_cons] at h
      simp at h
      subst h
      exact List.mem_cons_self _ _
    · rw [List.lookup_cons] at h
      rw [beq_false_of_ne hk] at h
      exact List.mem_cons_of_mem _ (ih h)

/-- Every address registered while folding the lines stays bounded by the
final instruction count: the program only grows, and each label is bound
at the length the program had at that moment. -/
theorem parseLines_labels_bound :
    ∀ (lines : List String) (p0 : Program) (l0 : LabelMap)
      (p : Program) (l : LabelMap),
      (∀ x ∈ l0, x.2 ≤ p0.length) →
      Interp.parseLines lines p0 l0 = Except.ok (p, l) →
      ∀ x ∈ l, x.2 ≤ p.length := by
  intro lines
  induction lines with
  | nil =>
    intro p0 l0 p l h0 hp
    unfold Interp.parseLines at hp
    injection hp with h2
    injection h2 with h3 h4
    subst h3; subst h4
    exact h0
  | cons line rest ih =>
    intro p0 l0 p l h0 hp
    cases hline : Interp.parse_line line with
    | error e =>
      rw [parseLines_error_step line e rest p0 l0 hline] at hp
      exact absurd hp (by simp)
    | ok pl =>
      cases pl with
      | Instr i =>
        rw [parseLines_instr_step line i rest p0 l0 hline] at hp
        refine ih (p0 ++ [i]) l0 p l ?_ hp
        intro x hx
        have := h0 x hx
        simp only [List.length_append, List.length_cons, List.length_nil]
        omega
      | Label name =>
        cases hlk : List.lookup name l0 with
        | some addr =>
          rw [parseLines_dup_step line name rest p0 l0 hline
            (by rw [hlk]; rfl)] at hp
          exact absurd hp (by simp)
        | none =>
          rw [parseLines_label_step line name rest p0 l0 hline hlk] at hp
          refine ih p0 (l0 ++ [(name, p0.length)]) p l ?_ hp
          intro x hx
          rcases List.mem_append.mp hx with hx1 | hx1
          · exact h0 x hx1
          · rw [List.mem_singleton.mp hx1]

/-- C3: loading binds a (fresh) label name to the number of instructions
emitted so far — the address of the next instruction to be emitted — and
emits no instruction for the directive itself; hence the forward-jump
program resolves `skip` to address 4 and prints exactly 1, skipping the
`push 99 / pop` block. -/
theorem label_binds_next_addr (line name : String)
    (lines : List String) (prog : Program) (labels : LabelMap)
    (hline : Interp.parse_line line = Except.ok (ParsedLine.Label name))
    (hnew : List.lookup name labels = none) :
    Interp.parseLines (line :: lines) prog labels
        = Interp.parseLines lines prog (labels ++ [(name, prog.length)])
    ∧ Interp.parse
        ["push 0", "je 0 skip", "push 99", "pop", "skip:", "push 1", "print"]
      = Except.ok
          ([Instr.Push (StackVal.Number 0), Instr.JumpEqual 0 ("skip"),
            Instr.Push (StackVal.Number 99), Instr.Pop,
            Instr.Push (StackVal.Number 1), Instr.Print],
           [(("skip" : String), 4)])
    ∧ interpret
        ["push 0", "je 0 skip", "push 99", "pop", "skip:", "push 1", "print"]
        10
      = Except.ok (Outcome.ok ⟨[], 6, [1]⟩) :=
  ⟨parseLines_label_step line name lines prog labels hline hnew, rfl, rfl⟩

theorem label_binds_next_addr_witness :
    Interp.parseLines [("skip:")] [Instr.Pop] []
      = Except.ok ([Instr.Pop], [(("skip" : String), 1)])
    ∧ interpret
        ["push 0", "je 0 skip", "push 99", "pop", "skip:", "push 1", "print"]
        10
      = Except.ok (Outcome.ok ⟨[], 6, [1]⟩) := by
  have h := label_binds_next_addr ("skip:") ("skip") [] [Instr.Pop] [] rfl rfl
  exact ⟨by rw [h.1]; rfl, h.2.2⟩

/-- Fetching an instruction reduces a step to its dispatch. -/
theorem step_some (p : Program) (l : LabelMap) (s : State) (i : Instr)
    (hget : List.get? p s.pc = some i) :
    step p l s = execInstr l i s := by
  unfold step
  rw [hget]

/-- The dispatch of a fetched instruction never yields the halt result. -/
theorem step_no_halt_of_get (p : Program) (l : LabelMap) (s s2 : State)
    (i : Instr) (hget : List.get? p s.pc = some i) :
    step p l s ≠ StepResult.halt s2 := by
  intro h
  rw [step_some p l s i hget] at h
  cases i <;> simp only [execInstr] at h <;>
    (try split at h) <;> (try simp at h) <;>
    (try split at h) <;> (try simp at h) <;>
    (try split at h) <;> (try simp at h)

/-- A step that continues keeps the program counter within bounds, given
that every label address is within bounds: fall-through moves from a
fetched (in-bounds) instruction to its successor, and a taken jump moves
to a label address. -/
theorem step_pc_bound (p : Program) (l : LabelMap) (s s2 : State)
    (hl : ∀ x ∈ l, x.2 ≤ p.length)
    (h : step p l s = StepResult.next s2) :
    s.pc < p.length ∧ s2.pc ≤ p.length := by
  cases hget : List.get? p s.pc with
  | none =>
    unfold step at h
    rw [hget] at h
    exact absurd h (by simp)
  | some i =>
    rw [step_some p l s i hget] at h
    have hlt : s.pc < p.length := (List.get?_eq_some.mp hget).1
    refine ⟨hlt, ?_⟩
    cases i with
    | Push v =>
      simp only [execInstr] at h
      injection h with h2
      rw [← h2]
      show s.pc + 1 ≤ p.length
      omega
    | Add =>
      simp only [execInstr] at h
      split at h
      · injection h with h2; rw [← h2]; show s.pc + 1 ≤ p.length; omega
      · exact absurd h (by simp)
    | Dup =>
      simp only [execInstr] at h
      split at h
      · injection h with h2; rw [← h2]; show s.pc + 1 ≤ p.length; omega
      · exact absurd h (by simp)
    | Sub =>
      simp only [execInstr] at h
      split at h
      · injection h with h2; rw [← h2]; show s.pc + 1 ≤ p.length; omega
      · exact absurd h (by simp)
    | Print =>
      simp only [execInstr] at h
      split at h
      · injection h with h2; rw [← h2]; show s.pc + 1 ≤ p.length; omega
      · exact absurd h (by simp)
    | Pop =>
      simp only [execInstr] at h
      split at h
      · injection h with h2; rw [← h2]; show s.pc + 1 ≤ p.length; omega
      · exact absurd h (by simp)
    | JumpEqual cmp lbl =>
      simp only [execInstr] at h
      split at h
      · split at h
        · split at h
          · rename_i v rest hif addr hlook
            injection h with h2; rw [← h2]
            show addr ≤ p.length
            exact hl (lbl, addr) (lookup_mem l hlook)
          · exact absurd h (by simp)
        · injection h with h2; rw [← h2]; show s.pc + 1 ≤ p.length; omega
      · exact absurd h (by simp)
    | JumpNotEqual cmp lbl =>
      simp only [execInstr] at h
      split at h
      · split at h
        · split at h
          · rename_i v rest hif addr hlook
            injection h with h2; rw [← h2]
            show addr ≤ p.length
            exact hl (lbl, addr) (lookup_mem l hlook)
          · exact absurd h (by simp)
        · injection h with h2; rw [← h2]; show s.pc + 1 ≤ p.length; omega
      · exact absurd h (by simp)

/-- C9: the program counter never escapes the program: every label address
produced by loading is at most the final program length; a continuing step
runs from a fetched in-bounds instruction to a pc still at most the
length; and the engine halts normally exactly when the pc has reached or
passed the program length (so fetch is never out of bounds). -/
theorem pc_bounded (lines : List String) (p : Program) (l : LabelMap)
    (p2 : Program) (l2 : LabelMap) (s s2 : State) :
    (Interp.parse lines = Except.ok (p, l) → ∀ x ∈ l, x.2 ≤ p.length)
    ∧ ((∀ x ∈ l2, x.2 ≤ p2.length) → step p2 l2 s = StepResult.next s2 →
        s.pc < p2.length ∧ s2.pc ≤ p2.length)
    ∧ (step p2 l2 s = StepResult.halt s ↔ p2.length ≤ s.pc) := by
  refine ⟨?_, step_pc_bound p2 l2 s s2, ?_⟩
  · intro hp
    exact parseLines_labels_bound lines [] [] p l (by intro x hx; simp at hx) hp
  · constructor
    · intro h
      cases hget : List.get? p2 s.pc with
      | none => exact List.get?_eq_none.mp hget
      | some i => exact absurd h (step_no_halt_of_get p2 l2 s s i hget)
    · intro h
      unfold step
      rw [List.get?_eq_none.mpr h]

theorem pc_bounded_witness :
    ((∀ x ∈ ([(("end" : String), 1)] : LabelMap),
        x.2 ≤ ([Instr.JumpEqual 0 ("end")] : Program).length)
      ∧ step [Instr.JumpEqual 0 ("end")] [(("end" : String), 1)]
          ⟨[StackVal.Number 0], 0, []⟩ = StepResult.next ⟨[], 1, []⟩)
    ∧ (0 < 1 ∧ 1 ≤ 1)
    ∧ step ([] : Program) [] initState = StepResult.halt initState := by
  have h := pc_bounded [] [] [] [Instr.JumpEqual 0 ("end")]
    [(("end" : String), 1)] ⟨[StackVal.Number 0], 0, []⟩ ⟨[], 1, []⟩
  refine ⟨⟨by decide, rfl⟩, ?_, ?_⟩
  · exact h.2.1 (by decide) rfl
  · have h2 := pc_bounded [] [] [] ([] : Program) [] initState initState
    exact h2.2.2.mpr (by decide)

/-- The lib.rs dispatch never yields the halt result: only a failed fetch
ends the loop. -/
theorem execInstrT_no_halt (l : LabelMap) (i : Instr) (s s2 : State) :
    execInstrT l i s ≠ StepResult.halt s2 := by
  intro h
  cases i <;> simp only [execInstrT] at h <;>
    (try split at h) <;> (try simp at h) <;>
    (try split at h) <;> (try simp at h) <;>
    (try split at h) <;> (try simp at h)

/-- A jump-free instruction that continues always falls through to the
textually next instruction. -/
theorem execInstrT_jumpFree_pc (l : LabelMap) (i : Instr) (s s2 : State)
    (hjf : jumpFreeInstr i = true)
    (h : execInstrT l i s = StepResult.next s2) :
    s2.pc = s.pc + 1 := by
  cases i with
  | Push v =>
    simp only [execInstrT] at h
    injection h with h2
    rw [← h2]
  | Add =>
    simp only [execInstrT] at h
    split at h
    · injection h with h2; rw [← h2]
    · exact absurd h (by simp)
  | Dup =>
    simp only [execInstrT] at h
    split at h
    · injection h with h2; rw [← h2]
    · exact absurd h (by simp)
  | Sub =>
    simp only [execInstrT] at h
    split at h
    · injection h with h2; rw [← h2]
    · exact absurd h (by simp)
  | Print =>
    simp only [execInstrT] at h
    split at h
    · injection h with h2; rw [← h2]
    · exact absurd h (by simp)
  | Pop =>
    simp only [execInstrT] at h
    split at h
    · injection h with h2; rw [← h2]
    · exact absurd h (by simp)
  | JumpEqual cmp lbl => exact absurd hjf (by simp [jumpFreeInstr])
  | JumpNotEqual cmp lbl => exact absurd hjf (by simp [jumpFreeInstr])

/-- On a jump-free program, a complete (normally terminating) traced run
starting at pc notifies exactly the instruction addresses from pc to the
end of the program, in textual order. -/
theorem runT_trace_jumpFree (p : Program) (l : LabelMap)
    (hjf : ∀ i ∈ p, jumpFreeInstr i = true) :
    ∀ (fuel : Nat) (s s2 : State) (tr : List Nat),
      runT p l fuel s = (Outcome.ok s2, tr) →
      tr = List.range' s.pc (p.length - s.pc) := by
  intro fuel
  induction fuel with
  | zero =>
    intro s s2 tr h
    exact absurd h (by simp [runT])
  | succ n ih =>
    intro s s2 tr h
    unfold runT at h
    cases hget : List.get? p s.pc with
    | none =>
      have hT : stepT p l s = (StepResult.halt s, []) := by
        unfold stepT; rw [hget]
      rw [hT] at h
      have h2 : (Outcome.ok s, ([] : List Nat)) = (Outcome.ok s2, tr) := h
      injection h2 with h3 h4
      rw [← h4]
      have hle : p.length ≤ s.pc := List.get?_eq_none.mp hget
      rw [Nat.sub_eq_zero_of_le hle]
      rfl
    | some i =>
      have hT : stepT p l s = (execInstrT l i s, [s.pc]) := by
        unfold stepT; rw [hget]
      have hjfi : jumpFreeInstr i = true := hjf i (List.get?_mem hget)
      rw [hT] at h
      cases hr : execInstrT l i s with
      | halt s3 => exact absurd hr (execInstrT_no_halt l i s s3)
      | fatal m s3 =>
        rw [hr] at h
        have h2 : (Outcome.fatal m s3, [s.pc]) = (Outcome.ok s2, tr) := h
        exact absurd h2 (by simp)
      | next s3 =>
        rw [hr] at h
        have h2 : ((runT p l n s3).1, [s.pc] ++ (runT p l n s3).2)
            = (Outcome.ok s2, tr) := h
        rcases hrun : runT p l n s3 with ⟨o, tr2⟩
        rw [hrun] at h2
        have h3 : o = Outcome.ok s2 := by
          have hc := congrArg Prod.fst h2
          simpa using hc
        have h4 : tr = s.pc :: tr2 := by
          have hc := congrArg Prod.snd h2
          simpa using hc.symm
        have hpc : s3.pc = s.pc + 1 := execInstrT_jumpFree_pc l i s s3 hjfi hr
        have htr2 : tr2 = List.range' s3.pc (p.length - s3.pc) :=
          ih s3 s2 tr2 (by rw [hrun, h3])
        have hlt : s.pc < p.length := (List.get?_eq_some.mp hget).1
        rw [h4, htr2, hpc]
        have hn : p.length - s.pc = (p.length - (s.pc + 1)) + 1 := by omega
        rw [hn, List.range'_succ]

/-- C1: the control-point notification fires exactly once per fetched
instruction (never on the end-of-program fetch), carries the pre-dispatch
pc, and alters nothing — the traced dispatch result equals the untraced
one; consequently a complete run of a jump-free program notifies once per
executed instruction, in textual instruction order 0, 1, …, n-1. -/
theorem control_point_once_per_instr (p : Program) (l : LabelMap)
    (fuel : Nat) (s s2 : State) (tr : List Nat) :
    ((stepT p l s).1 = step p l s)
    ∧ ((stepT p l s).2 = if (List.get? p s.pc).isSome then [s.pc] else [])
    ∧ (p.all jumpFreeInstr = true →
        runT p l fuel initState = (Outcome.ok s2, tr) →
        tr = List.range p.length) := by
  refine ⟨stepT_fst p l s, stepT_snd p l s, ?_⟩
  intro hjf hrun
  have htr := runT_trace_jumpFree p l
    (fun i hi => List.all_eq_true.mp hjf i hi) fuel initState s2 tr hrun
  rw [htr]
  show List.range' 0 (p.length - 0) = List.range p.length
  rw [Nat.sub_zero, List.range_eq_range']

theorem control_point_once_per_instr_witness :
    ([Instr.Push (StackVal.Number 3), Instr.Push (StackVal.Number 4),
      Instr.Add, Instr.Print] : Program).all jumpFreeInstr = true
    ∧ runT [Instr.Push (StackVal.Number 3), Instr.Push (StackVal.Number 4),
        Instr.Add, Instr.Print] [] 5 initState
      = (Outcome.ok ⟨[], 4, [7]⟩, [0, 1, 2, 3])
    ∧ [0, 1, 2, 3] = List.range 4 := by
  refine ⟨by decide, rfl, ?_⟩
  exact (control_point_once_per_instr
    [Instr.Push (StackVal.Number 3), Instr.Push (StackVal.Number 4),
     Instr.Add, Instr.Print] [] 5 initState ⟨[], 4, [7]⟩
    [0, 1, 2, 3]).2.2 (by decide) rfl
